import Mathlib

/-!
Verification of the strain-design notebook (`notebooks/2_strain_design.ipynb`).

The notebook orchestrates two external libraries: a constraint-based flux
solver (`FBA`, `gene_knockout`, `reaction_knockout` from ReFramed) and an
evolutionary strain-design engine (`EA`, `GKOProblem` from MEWpy).  The
notebook's own code is limited to building constraint dictionaries, calling
the libraries and tabulating results; the external calls are modelled here
from the specification's contracts (sections 4.3, 4.4, 4.7), while the
notebook's own logic (constraint maps, the `get_list` / `table` tabulation
cell) is embedded directly from the source.
-/

namespace StrainDesign

/-- Gene-reaction association rule: a boolean expression over gene
identifiers (spec 4.4: reactions become inactive via boolean
gene-reaction rules when genes are removed). -/
inductive GPR where
  | always : GPR
  | gene : String → GPR
  | both : GPR → GPR → GPR
  | either : GPR → GPR → GPR
deriving Repr, DecidableEq

/-- Evaluate whether a gene-reaction rule is still active after the genes
in `knocked` are removed. -/
def GPR.active (knocked : List String) : GPR → Bool
  | .always => true
  | .gene g => !(knocked.contains g)
  | .both a b => a.active knocked && b.active knocked
  | .either a b => a.active knocked || b.active knocked

/-- A reaction of the metabolic model: identifier, lower/upper flux bound,
stoichiometric relation to metabolites, gene-reaction rule (spec 3). -/
structure Reaction where
  id : String
  lb : ℚ
  ub : ℚ
  stoich : List (String × ℚ)
  gpr : GPR
deriving Repr, DecidableEq

/-- A metabolic model: reactions, metabolites and a designated biomass
reaction (spec 3, "Model"). -/
structure Model where
  reactions : List Reaction
  metabolites : List String
  biomass_reaction : String
deriving Repr, DecidableEq

/-- A constraint map: reaction identifier to a (lower, upper) bound pair
(spec 3, "Constraint Map"); the notebook builds these as dictionaries
such as `knockouts` and `anaerobic`. -/
abbrev ConstraintMap := List (String × ℚ × ℚ)

/-- The result of one flux balance analysis call: an objective value and a
mapping from reaction identifiers to achieved flux (spec 3, "Solution"). -/
structure Solution where
  fobj : ℚ
  values : String → ℚ

/-- Error taxonomy entry (c) of spec 7: no feasible flux distribution
under the given bounds. -/
inductive FBAErr where
  | infeasible : FBAErr
deriving Repr, DecidableEq

/-- Effective bounds of a reaction under a transient constraint map: the
map's entry when present, else the bounds stored in the model
(spec 4.3, an optional constraint map layered on top of the model's
own bounds). -/
def effBounds (c : ConstraintMap) (r : Reaction) : ℚ × ℚ :=
  match List.lookup r.id c with
  | some b => b
  | none => (r.lb, r.ub)

/-- Stoichiometric coefficient of a metabolite in a reaction (0 when the
metabolite does not take part). -/
def stoichCoeff (r : Reaction) (met : String) : ℚ :=
  match List.lookup met r.stoich with
  | some q => q
  | none => 0

/-- Steady-state mass balance: for every metabolite the net production
over all reactions is zero (spec 4.3, stoichiometric steady-state
balance). -/
def steadyState (m : Model) (v : String → ℚ) : Prop :=
  ∀ met ∈ m.metabolites,
    (m.reactions.map (fun r => stoichCoeff r met * v r.id)).sum = 0

/-- Bound satisfaction: every reaction's flux lies within its effective
bounds under the constraint map. -/
def withinBounds (m : Model) (c : ConstraintMap) (v : String → ℚ) : Prop :=
  ∀ r ∈ m.reactions, (effBounds c r).1 ≤ v r.id ∧ v r.id ≤ (effBounds c r).2

/-- A feasible flux distribution: steady state plus bound satisfaction
(spec 4.3). -/
def Feasible (m : Model) (c : ConstraintMap) (v : String → ℚ) : Prop :=
  steadyState m v ∧ withinBounds m c v

/-- The reaction being optimized: the optional objective override, else the
model's designated biomass reaction (spec 4.3). -/
def objectiveOf (m : Model) (obj : Option String) : String :=
  obj.getD m.biomass_reaction

/-- Modelled from the spec: the contract of the external flux solver
(`reframed.FBA`), whose code is not part of this repository.  Spec 4.3:
the call maximizes the chosen objective subject to steady-state balance
and the (possibly overridden) bounds, and fails with an InfeasibleError
if and only if no feasible flux distribution exists; a returned solution
is feasible, reports the objective reaction's flux as its objective
value, and no feasible flux distribution has a larger objective flux. -/
def FBASpec (m : Model) (obj : Option String) (c : ConstraintMap) :
    Except FBAErr Solution → Prop
  | .error .infeasible => ∀ v, ¬ Feasible m c v
  | .ok sol =>
      Feasible m c sol.values ∧
      sol.fobj = sol.values (objectiveOf m obj) ∧
      ∀ v, Feasible m c v → v (objectiveOf m obj) ≤ sol.fobj

/-- Reactions of the model whose gene-reaction rule becomes inactive when
the given genes are removed (spec 4.4, gene knockout). -/
def deactivatedReactions (m : Model) (genes : List String) : List String :=
  (m.reactions.filter (fun r => !(r.gpr.active genes))).map (fun r => r.id)

/-- The transient constraint map forcing each listed reaction's bounds to
(0, 0) (spec 4.4). -/
def koConstraints (rxns : List String) : ConstraintMap :=
  rxns.map (fun rid => (rid, ((0 : ℚ), (0 : ℚ))))

/-- Modelled from the spec: the contract of `reframed.gene_knockout` —
deactivate the reactions whose gene-reaction rule becomes inactive,
force their bounds to (0, 0) via a constraint map, and invoke FBA
(spec 4.4). -/
def GeneKnockoutSpec (m : Model) (genes : List String)
    (r : Except FBAErr Solution) : Prop :=
  FBASpec m none (koConstraints (deactivatedReactions m genes)) r

/-- Modelled from the spec: the contract of `reframed.reaction_knockout` —
force each listed reaction's bounds to (0, 0) via a constraint map and
invoke FBA (spec 4.4). -/
def ReactionKnockoutSpec (m : Model) (rxns : List String)
    (r : Except FBAErr Solution) : Prop :=
  FBASpec m none (koConstraints rxns) r

/-- A one-to-one gene-reaction mapping: every reaction's rule is a single
gene (claim C4's hypothesis on the shape of the mapping). -/
def oneToOneGPR (m : Model) : Prop :=
  ∀ r ∈ m.reactions, ∃ g, r.gpr = GPR.gene g

/-- The reaction-level knockout set equivalent to a gene knockout set:
the reactions whose single controlling gene is knocked out. -/
def correspondingReactions (m : Model) (genes : List String) : List String :=
  (m.reactions.filter (fun r =>
    match r.gpr with
    | .gene g => genes.contains g
    | _ => false)).map (fun r => r.id)

/-! Session state (claim C6).  The notebook applies the environmental
oxygen-exclusion bound by mutating the model (`model.reactions.R_EX_o2_e.lb
= 0`), while knockouts travel as a transient constraint map into the solver
call (`FBA(model, constraints=knockouts)`).  The spec (4.2, design notes)
fixes that a solver call with a constraint map does not mutate the model. -/

/-- Persistent bound mutation, the embedding of the notebook statement
`model.reactions.R_EX_o2_e.lb = 0`: set the stored lower bound of the
named reaction. -/
def setLB (m : Model) (rid : String) (x : ℚ) : Model :=
  { m with
    reactions := m.reactions.map (fun r =>
      if r.id = rid then { r with lb := x } else r) }

/-- A notebook action on the session's model: a persistent bound mutation
or a solver call carrying a transient constraint map. -/
inductive Step where
  | mutateLB : String → ℚ → Step
  | solve : ConstraintMap → Step

/-- Modelled from the spec: the effect of one notebook action on the stored
model.  A solver call reads the model and layers its constraint map only
inside the call (spec 4.2: knockout bounds are passed as a transient
constraint map into the solver rather than mutating the model), so it
leaves the stored model unchanged; only `mutateLB` changes it. -/
def applyStep (m : Model) : Step → Model
  | .mutateLB rid x => setLB m rid x
  | .solve _ => m

/-- Run a sequence of notebook actions over the session's model. -/
def runSteps (m : Model) (steps : List Step) : Model :=
  steps.foldl applyStep m

/-- Whether an action is a persistent mutation. -/
def Step.isMutate : Step → Bool
  | .mutateLB _ _ => true
  | .solve _ => false

/-! Evolutionary search engine (claims C7 and C9).  `EA(problem).run()` is
a call into MEWpy; the loop below is modelled from spec 4.7. -/

/-- An optimization objective descriptor: a raw target-reaction flux or the
biomass-product coupled yield (spec 3, "Objective Descriptor"; notebook
objectives `TargetFlux("R_EX_succ_e")` and
`BPCY(model.biomass_reaction, "R_EX_succ_e")`). -/
inductive ObjectiveDescr where
  | targetFlux : String → ObjectiveDescr
  | bpcy : String → String → ObjectiveDescr
deriving Repr, DecidableEq

/-- Modelled from the spec: evaluate one objective descriptor on a flux
distribution — the raw target flux, or the composite yield metric, a
product involving the biomass reaction and the target reaction
(spec 3, "Objective Descriptor"). -/
def evalObjective (v : String → ℚ) : ObjectiveDescr → ℚ
  | .targetFlux rid => v rid
  | .bpcy biomass target => v biomass * v target

/-- The strain-design problem descriptor: a model, an ordered list of
objective descriptors, an environmental constraint map (spec 3,
"Problem Descriptor"; notebook `GKOProblem(model, fevaluation=objectives,
envcond=anaerobic)`). -/
structure Problem where
  model : Model
  objectives : List ObjectiveDescr
  envcond : ConstraintMap

/-- Search configuration recognized by the engine (spec 4.7):
`population_size` and `max_generations`. -/
structure EAConfig where
  population_size : Nat
  max_generations : Nat

/-- An individual of the solution population: a knockout set (the `values`
read by the notebook's tabulation cell) and a fitness vector, one scalar
per objective (spec 3, "Solution Population"). -/
structure EAIndividual where
  values : List String
  fitness : List ℚ
deriving Repr, DecidableEq

/-- Modelled from the spec: evaluate a candidate knockout set — one fitness
entry per objective descriptor, each computed from the flux distribution
the solver oracle returns for the candidate under the environmental
conditions (spec 4.7).  The oracle stands for the per-candidate flux
solve delegated to 4.3/4.4. -/
def evaluate (objs : List ObjectiveDescr) (oracle : List String → String → ℚ)
    (cand : List String) : EAIndividual :=
  { values := cand, fitness := objs.map (evalObjective (oracle cand)) }

/-- Modelled from the spec: keep the best-ranked `p` individuals — rank the
combined population and truncate to the population size (spec 4.7: rank
candidates by dominance, output size bounded by population_size).  The
ranking relation is a parameter, as the engine's dominance ranking is
external. -/
def selectBest (p : Nat) (rank : EAIndividual → EAIndividual → Prop)
    [DecidableRel rank] (pop : List EAIndividual) : List EAIndividual :=
  (pop.insertionSort rank).take p

/-- Modelled from the spec: one generation of the evolutionary loop —
evaluate the offspring candidates produced by selection/crossover/
mutation, merge them with the current population and keep the
best-ranked individuals (spec 4.7). -/
def EAStep (cfg : EAConfig) (objs : List ObjectiveDescr)
    (oracle : List String → String → ℚ)
    (rank : EAIndividual → EAIndividual → Prop) [DecidableRel rank]
    (pop : List EAIndividual) (offspring : List (List String)) :
    List EAIndividual :=
  selectBest cfg.population_size rank (pop ++ offspring.map (evaluate objs oracle))

/-- Modelled from the spec: the evolutionary search `EA(problem).run()`
(spec 4.7) — start from an initial candidate population, iterate
selection/crossover/mutation for at most `max_generations` generations
and return the resulting population.  The stochastic variation is
threaded in as the `offsprings` stream (one batch of candidate knockout
sets per generation); the dominance ranking and the per-candidate flux
solve are the `rank` and `oracle` parameters. -/
def EARun (prob : Problem) (cfg : EAConfig)
    (oracle : List String → String → ℚ)
    (rank : EAIndividual → EAIndividual → Prop) [DecidableRel rank]
    (initial : List (List String)) (offsprings : List (List (List String))) :
    List EAIndividual :=
  (offsprings.take cfg.max_generations).foldl
    (fun pop batch => EAStep cfg prob.objectives oracle rank pop batch)
    (selectBest cfg.population_size rank (initial.map (evaluate prob.objectives oracle)))

/-! Result tabulation (claims C8, C9, C10): the notebook cell
`get_list = lambda x: [r_id[2:] for r_id in x.values]`,
`table = [[get_list(x), len(get_list(x)), x.fitness[0], x.fitness[1]] for x
in solutions]`, followed by `df.sort_values("total")`. -/

/-- The notebook's `get_list` lambda: drop the first two characters of every
identifier in a solution's knockout set, unconditionally. -/
def get_list (values : List String) : List String :=
  values.map (fun r_id => r_id.drop 2)

/-- One row of the notebook's table: columns `knockouts`, `total`, `rate`,
`BPCY`.  Python `x.fitness[0]` / `x.fitness[1]` are total reads on the
populations the notebook builds; out-of-range reads are embedded as 0. -/
structure Row where
  knockouts : List String
  total : Nat
  rate : ℚ
  BPCY : ℚ
deriving Repr, DecidableEq

/-- Build the row of one solution, as in the notebook's `table`
comprehension: `[get_list(x), len(get_list(x)), x.fitness[0],
x.fitness[1]]`. -/
def mkRow (x : EAIndividual) : Row :=
  { knockouts := get_list x.values
    total := (get_list x.values).length
    rate := x.fitness.getD 0 0
    BPCY := x.fitness.getD 1 0 }

/-- The notebook's `table`: one row per solution of the population. -/
def table (solutions : List EAIndividual) : List Row :=
  solutions.map mkRow

/-- Comparison used by `df.sort_values("total")`: order rows by the
knockout-count column. -/
def rowLE (a b : Row) : Prop := a.total ≤ b.total

instance : DecidableRel rowLE := fun a b => inferInstanceAs (Decidable (a.total ≤ b.total))

/-- Modelled from the spec: `df.sort_values("total")` — sort the table's
rows by the `total` column (pandas' comparison sort, embedded as a
comparison sort on that column). -/
def sortValuesTotal (rows : List Row) : List Row :=
  rows.insertionSort rowLE

/-! Concrete models used to instantiate the contract theorems. -/

/-- A model whose sole reaction has contradictory bounds, so no feasible
flux distribution exists. -/
def Winfeas : Model :=
  { reactions := [{ id := "R1", lb := 1, ub := 0, stoich := [], gpr := .always }]
    metabolites := []
    biomass_reaction := "R1" }

/-- An uptake reaction producing metabolite M, controlled by gene G1. -/
def rIn : Reaction :=
  { id := "R_in", lb := 0, ub := 10, stoich := [("M", 1)], gpr := .gene "G1" }

/-- A biomass reaction consuming metabolite M, controlled by gene G2. -/
def rBio : Reaction :=
  { id := "R_BIO", lb := 0, ub := 10, stoich := [("M", -1)], gpr := .gene "G2" }

/-- A two-reaction model: the only pathway to the biomass reaction runs
through the uptake reaction. -/
def Wcore : Model :=
  { reactions := [rIn, rBio], metabolites := ["M"], biomass_reaction := "R_BIO" }

theorem Winfeas_no_feasible (v : String → ℚ) : ¬ Feasible Winfeas [] v := by
  rintro ⟨-, hb⟩
  have h := hb { id := "R1", lb := 1, ub := 0, stoich := [], gpr := .always }
    (by simp [Winfeas])
  simp [effBounds] at h
  linarith [h.1, h.2]

theorem Wcore_ko_zero_feasible :
    Feasible Wcore (koConstraints ["R_in"]) (fun _ => 0) := by
  constructor
  · intro met hmet
    simp [Wcore, steadyState]
  · intro r hr
    simp [Wcore] at hr
    rcases hr with h | h <;> subst h <;>
      simp [effBounds, koConstraints, rIn, rBio, List.lookup]

theorem Wcore_ko_disconnected (v : String → ℚ)
    (h : Feasible Wcore (koConstraints ["R_in"]) v) : v "R_BIO" = 0 := by
  obtain ⟨hss, hb⟩ := h
  have hM := hss "M" (by simp [Wcore])
  have hin := hb rIn (by simp [Wcore])
  simp [Wcore, rIn, rBio, stoichCoeff, effBounds, koConstraints, List.lookup] at hM hin
  linarith [hin.1, hin.2]

theorem Wcore_ko_spec :
    FBASpec Wcore none (koConstraints ["R_in"])
      (.ok { fobj := 0, values := fun _ => 0 }) := by
  refine ⟨Wcore_ko_zero_feasible, rfl, ?_⟩
  intro v hv
  exact le_of_eq (Wcore_ko_disconnected v hv)

theorem Wcore_ten_feasible : Feasible Wcore [] (fun _ => 10) := by
  constructor
  · intro met hmet
    simp [Wcore] at hmet
    subst hmet
    simp [Wcore, rIn, rBio, stoichCoeff, List.lookup]
  · intro r hr
    simp [Wcore] at hr
    rcases hr with h | h <;> subst h <;>
      simp [effBounds, rIn, rBio, List.lookup]

theorem Wcore_flux_le_ten (rid : String) (hrid : rid = "R_in" ∨ rid = "R_BIO")
    (v : String → ℚ) (hv : Feasible Wcore [] v) : v rid ≤ 10 := by
  obtain ⟨-, hb⟩ := hv
  rcases hrid with h | h <;> subst h
  · have := hb rIn (by simp [Wcore])
    simpa [effBounds, rIn, List.lookup] using this.2
  · have := hb rBio (by simp [Wcore])
    simpa [effBounds, rBio, List.lookup] using this.2

theorem Wcore_target_spec :
    FBASpec Wcore (some "R_in") []
      (.ok { fobj := 10, values := fun _ => 10 }) := by
  refine ⟨Wcore_ten_feasible, rfl, ?_⟩
  intro v hv
  exact Wcore_flux_le_ten "R_in" (Or.inl rfl) v hv

theorem Wcore_biomass_spec :
    FBASpec Wcore none []
      (.ok { fobj := 10, values := fun _ => 10 }) := by
  refine ⟨Wcore_ten_feasible, rfl, ?_⟩
  intro v hv
  exact Wcore_flux_le_ten "R_BIO" (Or.inr rfl) v hv

theorem Winfeas_err_spec : FBASpec Winfeas none [] (.error .infeasible) :=
  fun v => Winfeas_no_feasible v

theorem Wcore_oneToOne : oneToOneGPR Wcore := by
  intro r hr
  simp [Wcore] at hr
  rcases hr with h | h <;> subst h
  · exact ⟨"G1", rfl⟩
  · exact ⟨"G2", rfl⟩

theorem deactivated_eq_corresponding (m : Model) (genes : List String)
    (h : oneToOneGPR m) :
    deactivatedReactions m genes = correspondingReactions m genes := by
  unfold deactivatedReactions correspondingReactions
  congr 1
  apply List.filter_congr
  intro r hr
  obtain ⟨g, hg⟩ := h r hr
  simp [hg, GPR.active]

theorem Wcore_gene_ko_spec :
    GeneKnockoutSpec Wcore ["G1"] (.ok { fobj := 0, values := fun _ => 0 }) := by
  unfold GeneKnockoutSpec
  have h : deactivatedReactions Wcore ["G1"] = ["R_in"] := by decide
  rw [h]
  exact Wcore_ko_spec

theorem Wcore_reaction_ko_spec :
    ReactionKnockoutSpec Wcore (correspondingReactions Wcore ["G1"])
      (.ok { fobj := 0, values := fun _ => 0 }) := by
  unfold ReactionKnockoutSpec
  have h : correspondingReactions Wcore ["G1"] = ["R_in"] := by decide
  rw [h]
  exact Wcore_ko_spec

/-! Claim theorems. -/

/-- C1: for every model and constraint map under which no feasible flux
distribution exists, the flux solver invocation (FBA, with or without a
constraint map) fails with an InfeasibleError surfaced to the caller,
and never returns a solution (in particular none whose objective value
is reported as zero in place of that error). -/
theorem fba_infeasible_surfaced (m : Model) (obj : Option String)
    (c : ConstraintMap) (hinf : ∀ v, ¬ Feasible m c v)
    (r : Except FBAErr Solution) (hr : FBASpec m obj c r) :
    r = .error .infeasible ∧ ∀ sol : Solution, r ≠ .ok sol := by
  cases r with
  | error e =>
      cases e
      exact ⟨rfl, fun sol h => by cases h⟩
  | ok sol => exact absurd hr.1 (hinf sol.values)

theorem fba_infeasible_surfaced_witness :
    (Except.error FBAErr.infeasible : Except FBAErr Solution) =
        Except.error FBAErr.infeasible ∧
      ∀ sol : Solution,
        (Except.error FBAErr.infeasible : Except FBAErr Solution) ≠ Except.ok sol :=
  fba_infeasible_surfaced Winfeas none [] Winfeas_no_feasible _ Winfeas_err_spec

/-- C2: for every knockout set that disconnects all flux pathways to the
objective reaction while the knocked-out model stays feasible, the
perturbation simulation (a knockout constraint map followed by the flux
solve, the shape shared by gene_knockout and reaction_knockout) returns
a feasible solution whose objective value is exactly zero and does not
raise an infeasibility error. -/
theorem knockout_disconnected_zero_objective (m : Model) (ko : List String)
    (v0 : String → ℚ) (hfeas : Feasible m (koConstraints ko) v0)
    (hdis : ∀ v, Feasible m (koConstraints ko) v → v (objectiveOf m none) = 0)
    (r : Except FBAErr Solution) (hr : FBASpec m none (koConstraints ko) r) :
    ∃ sol, r = .ok sol ∧ sol.fobj = 0 := by
  cases r with
  | error e =>
      cases e
      exact absurd hfeas (hr v0)
  | ok sol =>
      obtain ⟨hf, ho, -⟩ := hr
      exact ⟨sol, rfl, ho.trans (hdis sol.values hf)⟩

theorem knockout_disconnected_zero_objective_witness :
    ∃ sol, (Except.ok { fobj := 0, values := fun _ => 0 } :
        Except FBAErr Solution) = .ok sol ∧ sol.fobj = 0 :=
  knockout_disconnected_zero_objective Wcore ["R_in"] (fun _ => 0)
    Wcore_ko_zero_feasible (fun v hv => Wcore_ko_disconnected v hv)
    _ Wcore_ko_spec

/-- C3: for every model in which some reaction's effective lower and upper
bounds are both 0 — whether stored in the model by persistent mutation
or supplied by the constraint map passed to the solver — every flux
solution returned by the flux solver reports flux exactly 0 through
that reaction. -/
theorem zero_bounds_zero_flux (m : Model) (obj : Option String)
    (c : ConstraintMap) (rx : Reaction) (hmem : rx ∈ m.reactions)
    (hb : effBounds c rx = (0, 0)) (sol : Solution)
    (hr : FBASpec m obj c (.ok sol)) : sol.values rx.id = 0 := by
  obtain ⟨⟨-, hwb⟩, -, -⟩ := hr
  have h := hwb rx hmem
  rw [hb] at h
  exact le_antisymm h.2 h.1

theorem zero_bounds_zero_flux_witness :
    (Solution.mk 0 (fun _ => 0)).values "R_in" = 0 :=
  zero_bounds_zero_flux Wcore none (koConstraints ["R_in"]) rIn
    (by simp [Wcore]) (by decide) _ Wcore_ko_spec

/-- C4: for every knockout set on a model whose gene-reaction mapping is
one-to-one (every reaction controlled by a single gene), applying the
knockouts via the gene-level path (gene_knockout) and via the
equivalent reaction-level path (reaction_knockout on the corresponding
reactions) yields numerically identical objective values. -/
theorem gene_reaction_knockout_agree (m : Model) (genes : List String)
    (h11 : oneToOneGPR m) (r1 r2 : Except FBAErr Solution)
    (h1 : GeneKnockoutSpec m genes r1)
    (h2 : ReactionKnockoutSpec m (correspondingReactions m genes) r2) :
    ∀ s1 s2, r1 = .ok s1 → r2 = .ok s2 → s1.fobj = s2.fobj := by
  intro s1 s2 e1 e2
  subst e1
  subst e2
  unfold GeneKnockoutSpec at h1
  unfold ReactionKnockoutSpec at h2
  rw [deactivated_eq_corresponding m genes h11] at h1
  obtain ⟨hf1, ho1, hm1⟩ := h1
  obtain ⟨hf2, ho2, hm2⟩ := h2
  have a1 := hm2 s1.values hf1
  have a2 := hm1 s2.values hf2
  apply le_antisymm
  · rw [ho1]; exact a1
  · rw [ho2]; exact a2

theorem gene_reaction_knockout_agree_witness :
    (Solution.mk 0 (fun _ => 0)).fobj = (Solution.mk 0 (fun _ => 0)).fobj :=
  gene_reaction_knockout_agree Wcore ["G1"] Wcore_oneToOne _ _
    Wcore_gene_ko_spec Wcore_reaction_ko_spec _ _ rfl rfl

/-- C5: for every model and target reaction, the objective value returned
when the flux solver optimizes the target reaction directly is at least
the flux of that same reaction in a solution that optimized the biomass
objective under the same bounds. -/
theorem direct_target_ge_biomass_aligned (m : Model) (c : ConstraintMap)
    (target : String) (s1 s2 : Solution)
    (h1 : FBASpec m (some target) c (.ok s1))
    (h2 : FBASpec m none c (.ok s2)) :
    s2.values target ≤ s1.fobj :=
  h1.2.2 s2.values h2.1

theorem direct_target_ge_biomass_aligned_witness :
    (Solution.mk 10 (fun _ => 10)).values "R_in" ≤
      (Solution.mk 10 (fun _ => 10)).fobj :=
  direct_target_ge_biomass_aligned Wcore [] "R_in" _ _
    Wcore_target_spec Wcore_biomass_spec

/-- C6: a flux solver call carrying a transient knockout constraint map
leaves every reaction bound stored in the model unchanged, so the model
reaching any later call is determined solely by the persistent
mutations (such as the oxygen-exclusion lower bound): running a session
equals running only its mutation steps. -/
theorem solver_calls_leave_model_unchanged (m : Model) (steps : List Step) :
    (∀ c, applyStep m (Step.solve c) = m) ∧
    runSteps m steps = runSteps m (steps.filter Step.isMutate) := by
  refine ⟨fun c => rfl, ?_⟩
  induction steps generalizing m with
  | nil => rfl
  | cons s rest ih =>
      cases s with
      | mutateLB rid x =>
          simpa [runSteps, Step.isMutate] using ih (setLB m rid x)
      | solve c =>
          simpa [runSteps, Step.isMutate] using ih m

/-! Helper lemmas for the evolutionary-search and tabulation claims. -/

theorem selectBest_length_le (p : Nat)
    (rank : EAIndividual → EAIndividual → Prop) [DecidableRel rank]
    (pop : List EAIndividual) : (selectBest p rank pop).length ≤ p := by
  simp only [selectBest, List.length_take]
  omega

theorem mem_selectBest (p : Nat)
    (rank : EAIndividual → EAIndividual → Prop) [DecidableRel rank]
    (pop : List EAIndividual) (x : EAIndividual)
    (hx : x ∈ selectBest p rank pop) : x ∈ pop :=
  (List.mem_insertionSort rank).1 (List.mem_of_mem_take hx)

theorem foldl_EAStep_length (cfg : EAConfig) (objs : List ObjectiveDescr)
    (oracle : List String → String → ℚ)
    (rank : EAIndividual → EAIndividual → Prop) [DecidableRel rank] :
    ∀ (batches : List (List (List String))) (pop : List EAIndividual),
      pop.length ≤ cfg.population_size →
      (batches.foldl (fun pop batch => EAStep cfg objs oracle rank pop batch)
          pop).length ≤ cfg.population_size
  | [], _, h => h
  | _ :: bs, _, _ =>
      foldl_EAStep_length cfg objs oracle rank bs _ (selectBest_length_le _ _ _)

theorem foldl_EAStep_fitness (cfg : EAConfig) (objs : List ObjectiveDescr)
    (oracle : List String → String → ℚ)
    (rank : EAIndividual → EAIndividual → Prop) [DecidableRel rank] :
    ∀ (batches : List (List (List String))) (pop : List EAIndividual),
      (∀ x ∈ pop, x.fitness.length = objs.length) →
      ∀ x ∈ batches.foldl (fun pop batch => EAStep cfg objs oracle rank pop batch) pop,
        x.fitness.length = objs.length := by
  intro batches
  induction batches with
  | nil => intro pop h; exact h
  | cons b bs ih =>
      intro pop h
      simp only [List.foldl_cons]
      apply ih
      intro x hx
      have hx' := mem_selectBest _ _ _ x hx
      rcases List.mem_append.1 hx' with hmem | hmem
      · exact h x hmem
      · obtain ⟨cand, -, rfl⟩ := List.mem_map.1 hmem
        simp [evaluate]

/-- An always-true ranking relation, used to instantiate the engine's
external dominance ranking on concrete runs. -/
def trivialRank : EAIndividual → EAIndividual → Prop := fun _ _ => True

instance : DecidableRel trivialRank := fun _ _ => Decidable.isTrue trivial

/-- The notebook's two-objective problem shape on the small concrete model:
maximize target flux and the biomass-product coupled yield under an
anaerobic environmental condition. -/
def WcoreProblem : Problem :=
  { model := Wcore
    objectives := [.targetFlux "R_EX_succ_e", .bpcy "R_BIO" "R_EX_succ_e"]
    envcond := [("R_EX_o2_e", 0, 0)] }

/-- C7: every evolutionary search run configured with population_size = P
returns a solution population containing at most P solutions. -/
theorem earun_size_bounded (prob : Problem) (cfg : EAConfig)
    (oracle : List String → String → ℚ)
    (rank : EAIndividual → EAIndividual → Prop) [DecidableRel rank]
    (initial : List (List String)) (offsprings : List (List (List String))) :
    (EARun prob cfg oracle rank initial offsprings).length ≤
      cfg.population_size := by
  unfold EARun
  exact foldl_EAStep_length cfg prob.objectives oracle rank _ _
    (selectBest_length_le _ _ _)

/-- C9: every solution of a population produced for a problem with k
objective descriptors has a fitness vector of length exactly k; for the
two-objective problem the entries fitness[0] and fitness[1] read by the
tabulator therefore exist. -/
theorem earun_fitness_length (prob : Problem) (cfg : EAConfig)
    (oracle : List String → String → ℚ)
    (rank : EAIndividual → EAIndividual → Prop) [DecidableRel rank]
    (initial : List (List String)) (offsprings : List (List (List String))) :
    ∀ x ∈ EARun prob cfg oracle rank initial offsprings,
      x.fitness.length = prob.objectives.length := by
  unfold EARun
  apply foldl_EAStep_fitness
  intro x hx
  have hx' := mem_selectBest _ _ _ x hx
  obtain ⟨cand, -, rfl⟩ := List.mem_map.1 hx'
  simp [evaluate]

theorem earun_fitness_length_witness :
    EAIndividual.mk ["G_b0008"] [0, 0] ∈
        EARun WcoreProblem ⟨2, 1⟩ (fun _ _ => 0) trivialRank
          [["G_b0008"]] [[["G_b2935"]]] ∧
      (EAIndividual.mk ["G_b0008"] [0, 0]).fitness.length =
        WcoreProblem.objectives.length :=
  ⟨by
    simp [EARun, EAStep, selectBest, evaluate, evalObjective, WcoreProblem,
      List.insertionSort, List.orderedInsert, trivialRank],
   earun_fitness_length WcoreProblem ⟨2, 1⟩ (fun _ _ => 0) trivialRank
     [["G_b0008"]] [[["G_b2935"]]] _ (by
      simp [EARun, EAStep, selectBest, evaluate, evalObjective, WcoreProblem,
        List.insertionSort, List.orderedInsert, trivialRank])⟩

instance : IsTotal Row rowLE := ⟨fun a b => Nat.le_total a.total b.total⟩

instance : IsTrans Row rowLE := ⟨fun _ _ _ h1 h2 => Nat.le_trans h1 h2⟩

/-- C8: tabulating a solution population into rows and sorting the table by
the knockout-count column yields a non-decreasing sequence of counts. -/
theorem sorted_totals_nondecreasing (solutions : List EAIndividual) :
    List.Sorted (· ≤ ·) ((sortValuesTotal (table solutions)).map Row.total) :=
  List.pairwise_map.mpr (List.sorted_insertionSort rowLE (table solutions))

/-- C10: the tabulator computes each displayed knockout entry by removing
exactly the first two characters of the identifier unconditionally, an
identifier of length at most two becomes the empty string, and the
row's count column equals the number of identifiers in the solution's
knockout set. -/
theorem tabulator_drops_two_chars (x : EAIndividual) :
    (mkRow x).knockouts = x.values.map (fun r_id => r_id.drop 2) ∧
    (mkRow x).total = x.values.length ∧
    ∀ r_id ∈ x.values, r_id.length ≤ 2 → r_id.drop 2 = "" := by
  refine ⟨rfl, ?_, ?_⟩
  · show (get_list x.values).length = x.values.length
    simp [get_list]
  · intro rid _ hlen
    have hdata : rid.data.drop 2 = [] := List.drop_eq_nil_of_le hlen
    rw [String.drop_eq, hdata]

theorem tabulator_drops_two_chars_witness :
    (mkRow ⟨["R_PFL", "ab"], [0, 0]⟩).knockouts =
        ["R_PFL", "ab"].map (fun r_id => r_id.drop 2) ∧
      (mkRow ⟨["R_PFL", "ab"], [0, 0]⟩).total = (["R_PFL", "ab"] : List String).length ∧
      ∀ r_id ∈ (["R_PFL", "ab"] : List String), r_id.length ≤ 2 → r_id.drop 2 = "" :=
  tabulator_drops_two_chars ⟨["R_PFL", "ab"], [0, 0]⟩

end StrainDesign
